import Mathlib

/-!
Verification of the Node request/response adapter of the `better-call`
repository (`src/packages/better-call/src/adapters/node/request.ts`).

The development is a shallow embedding: each TypeScript function of the
adapter is translated into an executable Lean definition over an explicit
data model (byte strings are lists of `Fin 256`, the event-driven stream
machinery becomes explicit state-transition functions), and the claims of
the specification are settled as theorems about those definitions.
-/

namespace BetterCall

/-! ## Bytes and small helpers

Wire-format strings (form bodies, percent-encoding) are modelled as their
byte sequences: lists of `Fin 256`.  Higher-level strings (header names,
error messages, URLs) are modelled as Lean `String`s.
-/

abbrev Byte := Fin 256

abbrev Bytes := List Byte

/-- `'+'` -/
def bPlus : Byte := ⟨43, by omega⟩

/-- `' '` -/
def bSpace : Byte := ⟨32, by omega⟩

/-- The percent character. -/
def bPercent : Byte := ⟨37, by omega⟩

/-- `'&'` -/
def bAmp : Byte := ⟨38, by omega⟩

/-- `'='` -/
def bEq : Byte := ⟨61, by omega⟩

/-- `','` -/
def bComma : Byte := ⟨44, by omega⟩

/-- `':'` -/
def bColon : Byte := ⟨58, by omega⟩

/-- `'"'` -/
def bQuote : Byte := ⟨34, by omega⟩

/-- The backslash character. -/
def bBackslash : Byte := ⟨92, by omega⟩

/-- Opening curly brace. -/
def jObjL : Byte := ⟨123, by omega⟩

/-- Closing curly brace. -/
def jObjR : Byte := ⟨125, by omega⟩

/-- `'['` -/
def jArrL : Byte := ⟨91, by omega⟩

/-- `']'` -/
def jArrR : Byte := ⟨93, by omega⟩

/-- The bytes of an ASCII Lean string (used for literal texts produced by
the adapter; all such literals are ASCII). -/
def strToBytes (s : String) : Bytes :=
  s.toList.map fun c => (⟨c.toNat % 256, by omega⟩ : Byte)

/-- Upper-case hex digit of a nibble (as used by the
`application/x-www-form-urlencoded` serializer). -/
def hexUpper (n : Fin 16) : Byte :=
  if n.val < 10 then ⟨48 + n.val, by omega⟩ else ⟨55 + n.val, by omega⟩

/-- Lower-case hex digit of a nibble (as used by `JSON.stringify` character
escapes). -/
def hexLower (n : Fin 16) : Byte :=
  if n.val < 10 then ⟨48 + n.val, by omega⟩ else ⟨87 + n.val, by omega⟩

/-- High nibble of a byte. -/
def hiNib (b : Byte) : Fin 16 := ⟨b.val / 16, by omega⟩

/-- Low nibble of a byte. -/
def loNib (b : Byte) : Fin 16 := ⟨b.val % 16, by omega⟩

/-- Join a list of byte strings with a single separator byte (the shape of
JavaScript `Array.prototype.join` with a one-character separator). -/
def joinSep (sep : Byte) : List Bytes → Bytes
  | [] => []
  | [x] => x
  | x :: xs => x ++ sep :: joinSep sep xs

/-! ## The modelled fragment of JavaScript values

The adapter's body-serialization helpers receive an arbitrary pre-parsed
body value.  The fragment modelled here: `undefined`, `null`, booleans,
integers, strings (as UTF-8 bytes), arrays, plain objects (entry lists) and
`URLSearchParams` instances (pair lists).  `isPlainObject` of the source
(prototype is `Object.prototype` or `null`) is true exactly of the `obj`
constructor.
-/

inductive JsValue where
  | undef
  | null
  | bool (b : Bool)
  | num (n : Int)
  | str (s : Bytes)
  | arr (xs : List JsValue)
  | obj (fields : List (Bytes × JsValue))
  | usp (pairs : List (Bytes × Bytes))

/-- Embeds `isPlainObject` (request.ts lines 33-39): true exactly for plain
key/value mappings, false for arrays, `URLSearchParams` and primitives. -/
def isPlainObject : JsValue → Bool
  | .obj _ => true
  | _ => false

/-! ## The `application/x-www-form-urlencoded` serializer

`URLSearchParams.toString()` percent-encodes each key and value (space
becomes `'+'`, bytes outside `[A-Za-z0-9*\x2D._]` become `%XX` with
upper-case hex) and joins the `key=value` segments with `'&'`.
-/

/-- Bytes the urlencoded serializer leaves unescaped: ASCII alphanumerics
and `*`, `-`, `.`, `_`. -/
def isSafeByte (b : Byte) : Bool :=
  decide ((48 ≤ b.val ∧ b.val ≤ 57) ∨ (65 ≤ b.val ∧ b.val ≤ 90) ∨
    (97 ≤ b.val ∧ b.val ≤ 122) ∨ b.val = 42 ∨ b.val = 45 ∨ b.val = 46 ∨ b.val = 95)

/-- Encoding of one byte under the urlencoded serializer. -/
def encByte (b : Byte) : Bytes :=
  if b.val = 32 then [bPlus]
  else if isSafeByte b then [b]
  else [bPercent, hexUpper (hiNib b), hexUpper (loNib b)]

/-- Percent-encoding of a byte string under the urlencoded serializer. -/
def urlencode : Bytes → Bytes
  | [] => []
  | b :: rest => encByte b ++ urlencode rest

/-- One `key=value` segment of the serialized form. -/
def segOf (p : Bytes × Bytes) : Bytes := urlencode p.1 ++ bEq :: urlencode p.2

/-- `URLSearchParams.toString()`: the `key=value` segments joined with
`'&'`. -/
def serializePairs : List (Bytes × Bytes) → Bytes
  | [] => []
  | [p] => segOf p
  | p :: rest => segOf p ++ bAmp :: serializePairs rest

/-! ## `JSON.stringify` and string coercion over the modelled fragment -/

/-- One byte of a JSON string literal, escaped the way `JSON.stringify`
escapes it. -/
def escapeJsonByte (b : Byte) : Bytes :=
  if b.val = 34 then [bBackslash, bQuote]
  else if b.val = 92 then [bBackslash, bBackslash]
  else if b.val = 8 then [bBackslash, ⟨98, by omega⟩]
  else if b.val = 9 then [bBackslash, ⟨116, by omega⟩]
  else if b.val = 10 then [bBackslash, ⟨110, by omega⟩]
  else if b.val = 12 then [bBackslash, ⟨102, by omega⟩]
  else if b.val = 13 then [bBackslash, ⟨114, by omega⟩]
  else if b.val < 32 then
    [bBackslash, ⟨117, by omega⟩, ⟨48, by omega⟩, ⟨48, by omega⟩,
      hexLower (hiNib b), hexLower (loNib b)]
  else [b]

/-- A JSON string literal: the escaped bytes between double quotes. -/
def jsonQuote (s : Bytes) : Bytes :=
  bQuote :: (s.map escapeJsonByte).flatten ++ [bQuote]

mutual

/-- `JSON.stringify` over the modelled fragment.  `undefined` serializes to
`null` (its treatment as an array element; object fields holding it are
dropped by `jsonFields`, and the adapter never stringifies a bare
`undefined`).  A `URLSearchParams` has no enumerable own properties, hence
serializes to an empty object. -/
def jsonStringify : JsValue → Bytes
  | .undef => strToBytes "null"
  | .null => strToBytes "null"
  | .bool true => strToBytes "true"
  | .bool false => strToBytes "false"
  | .num n => strToBytes (toString n)
  | .str s => jsonQuote s
  | .arr xs => jArrL :: joinSep bComma (jsonElems xs) ++ [jArrR]
  | .obj fs => jObjL :: joinSep bComma (jsonFields fs) ++ [jObjR]
  | .usp _ => [jObjL, jObjR]

/-- Serialized elements of a JSON array. -/
def jsonElems : List JsValue → List Bytes
  | [] => []
  | x :: r => jsonStringify x :: jsonElems r

/-- Serialized fields of a JSON object; fields holding `undefined` are
omitted, as `JSON.stringify` omits them. -/
def jsonFields : List (Bytes × JsValue) → List Bytes
  | [] => []
  | (_, .undef) :: r => jsonFields r
  | (k, v) :: r => (jsonQuote k ++ bColon :: jsonStringify v) :: jsonFields r

end

mutual

/-- JavaScript template-literal string coercion over the modelled
fragment. -/
def jsToString : JsValue → Bytes
  | .undef => strToBytes "undefined"
  | .null => strToBytes "null"
  | .bool true => strToBytes "true"
  | .bool false => strToBytes "false"
  | .num n => strToBytes (toString n)
  | .str s => s
  | .arr xs => joinSep bComma (jsArrElems xs)
  | .obj _ => strToBytes "[object Object]"
  | .usp pairs => serializePairs pairs

/-- Coerced elements of an array (`Array.prototype.toString` renders `null`
and `undefined` elements as empty strings). -/
def jsArrElems : List JsValue → List Bytes
  | [] => []
  | .undef :: r => [] :: jsArrElems r
  | .null :: r => [] :: jsArrElems r
  | x :: r => jsToString x :: jsArrElems r

end

/-! ## `appendFormValue` and `toFormUrlEncodedBody`

Embeds request.ts lines 41-74.  `appendFormValue` skips `undefined`,
recurses through arrays (repeated keys), appends the empty string for
`null`, the `JSON.stringify` text for plain objects and the string coercion
for everything else.  `toFormUrlEncodedBody` runs it over the entries of
the body object and serializes the accumulated pairs.
-/

mutual

/-- The pairs `appendFormValue` appends for one key and value. -/
def flattenValue (key : Bytes) : JsValue → List (Bytes × Bytes)
  | .undef => []
  | .arr xs => flattenList key xs
  | .null => [(key, [])]
  | .obj fs => [(key, jsonStringify (.obj fs))]
  | v => [(key, jsToString v)]

/-- The pairs appended for the items of an array value, in order. -/
def flattenList (key : Bytes) : List JsValue → List (Bytes × Bytes)
  | [] => []
  | x :: r => flattenValue key x ++ flattenList key r

end

/-- The pair list accumulated by the `toFormUrlEncodedBody` loop over the
entries of a plain body object. -/
def flattenBody : List (Bytes × JsValue) → List (Bytes × Bytes)
  | [] => []
  | (k, v) :: r => flattenValue k v ++ flattenBody r

/-- Embeds `toFormUrlEncodedBody` (request.ts lines 66-74): append every
entry through `appendFormValue` into a `URLSearchParams` and serialize
it. -/
def toFormUrlEncodedBody (body : List (Bytes × JsValue)) : Bytes :=
  serializePairs (flattenBody body)

/-! ## A standard `application/x-www-form-urlencoded` decoder

Modelled from the spec: the claim compares the serializer against "a
standard application/x-www-form-urlencoded decoder", which is not part of
this repository; the decoder below follows the WHATWG URL standard's
parser: split on `'&'`, drop empty segments, split each segment at the
first `'='`, replace `'+'` by space and percent-decode name and value.
-/

/-- Hex digit value, accepting both cases. -/
def hexVal (b : Byte) : Option (Fin 16) :=
  if h : 48 ≤ b.val ∧ b.val ≤ 57 then some ⟨b.val - 48, by omega⟩
  else if h2 : 65 ≤ b.val ∧ b.val ≤ 70 then some ⟨b.val - 55, by omega⟩
  else if h3 : 97 ≤ b.val ∧ b.val ≤ 102 then some ⟨b.val - 87, by omega⟩
  else none

/-- The byte with the given high and low nibbles. -/
def byteOfHex (x y : Fin 16) : Byte := ⟨x.val * 16 + y.val, by omega⟩

/-- Percent-decoding: `%` followed by two hex digits becomes the encoded
byte; anything else passes through. -/
def percentDecode : Bytes → Bytes
  | [] => []
  | b :: h1 :: h2 :: rest2 =>
    if b.val = 37 then
      match hexVal h1, hexVal h2 with
      | some x, some y => byteOfHex x y :: percentDecode rest2
      | _, _ => b :: percentDecode (h1 :: h2 :: rest2)
    else b :: percentDecode (h1 :: h2 :: rest2)
  | b :: rest => b :: percentDecode rest

/-- Replace `'+'` by space (the urlencoded decoder does this before
percent-decoding). -/
def plusToSpace (s : Bytes) : Bytes :=
  s.map fun b => if b.val = 43 then bSpace else b

/-- Decoding of one name or value of the form. -/
def decodeComponent (s : Bytes) : Bytes := percentDecode (plusToSpace s)

/-- Split a byte string on `'&'`. -/
def splitAmp : Bytes → List Bytes
  | [] => [[]]
  | b :: rest =>
    if b.val = 38 then [] :: splitAmp rest
    else
      match splitAmp rest with
      | [] => [[b]]
      | s :: ss => (b :: s) :: ss

/-- Split a segment at its first `'='`; a segment without one is all
name. -/
def splitEq : Bytes → Bytes × Bytes
  | [] => ([], [])
  | b :: rest =>
    if b.val = 61 then ([], rest)
    else
      let p := splitEq rest
      (b :: p.1, p.2)

/-- The standard urlencoded decoder. -/
def parseFormUrlEncoded (s : Bytes) : List (Bytes × Bytes) :=
  (splitAmp s).filterMap fun seg =>
    if seg = [] then none
    else
      let p := splitEq seg
      some (decodeComponent p.1, decodeComponent p.2)

/-! ## Round-trip of the form serializer -/

theorem hexVal_hexUpper : ∀ n : Fin 16, hexVal (hexUpper n) = some n := by decide

theorem hexUpper_facts :
    ∀ n : Fin 16, (hexUpper n).val ≠ 43 ∧ (hexUpper n).val ≠ 38 ∧ (hexUpper n).val ≠ 61 := by
  decide

theorem safe_facts (b : Byte) (h : isSafeByte b = true) :
    b.val ≠ 37 ∧ b.val ≠ 43 ∧ b.val ≠ 38 ∧ b.val ≠ 61 ∧ b.val ≠ 32 := by
  simp only [isSafeByte, decide_eq_true_eq] at h
  omega

theorem percentDecode_cons (b : Byte) (t : Bytes) (hb : b.val ≠ 37) :
    percentDecode (b :: t) = b :: percentDecode t := by
  match t with
  | [] => rfl
  | [x] => rfl
  | h1 :: h2 :: r => rw [percentDecode, if_neg hb]

theorem percentDecode_penc (x y : Fin 16) (t : Bytes) :
    percentDecode (bPercent :: hexUpper x :: hexUpper y :: t) =
      byteOfHex x y :: percentDecode t := by
  rw [percentDecode, if_pos (show bPercent.val = 37 from rfl),
    hexVal_hexUpper x, hexVal_hexUpper y]

theorem decode_encByte (b : Byte) (t : Bytes) :
    percentDecode (plusToSpace (encByte b) ++ t) = b :: percentDecode t := by
  by_cases h32 : b.val = 32
  · have hb : b = bSpace := Fin.ext h32
    subst hb
    rw [show plusToSpace (encByte bSpace) = [bSpace] from rfl, List.singleton_append]
    exact percentDecode_cons _ _ (by decide)
  · by_cases hs : isSafeByte b
    · have hf := safe_facts b hs
      have h1 : encByte b = [b] := by rw [encByte, if_neg h32, if_pos hs]
      have h2 : plusToSpace [b] = [b] := by
        simp only [plusToSpace, List.map_cons, List.map_nil, if_neg hf.2.1]
      rw [h1, h2, List.singleton_append]
      exact percentDecode_cons _ _ hf.1
    · have h1 : encByte b = [bPercent, hexUpper (hiNib b), hexUpper (loNib b)] := by
        rw [encByte, if_neg h32, if_neg hs]
      have h2 : plusToSpace [bPercent, hexUpper (hiNib b), hexUpper (loNib b)] =
          [bPercent, hexUpper (hiNib b), hexUpper (loNib b)] := by
        simp only [plusToSpace, List.map_cons, List.map_nil,
          if_neg (show ¬bPercent.val = 43 by decide),
          if_neg (hexUpper_facts (hiNib b)).1, if_neg (hexUpper_facts (loNib b)).1]
      rw [h1, h2, List.cons_append, List.cons_append, List.cons_append,
        List.nil_append, percentDecode_penc]
      have hb : byteOfHex (hiNib b) (loNib b) = b := by
        apply Fin.ext
        show b.val / 16 * 16 + b.val % 16 = b.val
        omega
      rw [hb]

theorem decodeComponent_urlencode (s : Bytes) :
    decodeComponent (urlencode s) = s := by
  induction s with
  | nil => rfl
  | cons b r ih =>
    unfold decodeComponent at ih ⊢
    have hsplit : plusToSpace (urlencode (b :: r)) =
        plusToSpace (encByte b) ++ plusToSpace (urlencode r) := by
      simp [urlencode, plusToSpace]
    rw [hsplit, decode_encByte, ih]

theorem encByte_ne (b : Byte) : ∀ c ∈ encByte b, c.val ≠ 38 ∧ c.val ≠ 61 := by
  intro c hc
  unfold encByte at hc
  by_cases h32 : b.val = 32
  · rw [if_pos h32] at hc
    rw [List.mem_singleton] at hc
    rw [hc]
    exact ⟨by decide, by decide⟩
  · rw [if_neg h32] at hc
    by_cases hs : isSafeByte b
    · rw [if_pos hs] at hc
      rw [List.mem_singleton] at hc
      rw [hc]
      have hf := safe_facts b hs
      exact ⟨hf.2.2.1, hf.2.2.2.1⟩
    · rw [if_neg hs] at hc
      simp only [List.mem_cons, List.not_mem_nil, or_false] at hc
      rcases hc with hc | hc | hc
      · rw [hc]
        exact ⟨by decide, by decide⟩
      · rw [hc]
        exact (hexUpper_facts (hiNib b)).2
      · rw [hc]
        exact (hexUpper_facts (loNib b)).2

theorem urlencode_ne (s : Bytes) : ∀ c ∈ urlencode s, c.val ≠ 38 ∧ c.val ≠ 61 := by
  induction s with
  | nil => simp [urlencode]
  | cons b r ih =>
    intro c hc
    simp only [urlencode, List.mem_append] at hc
    rcases hc with h | h
    · exact encByte_ne b c h
    · exact ih c h

theorem segOf_ne (p : Bytes × Bytes) : ∀ c ∈ segOf p, c.val ≠ 38 := by
  intro c hc
  simp only [segOf, List.mem_append, List.mem_cons] at hc
  rcases hc with h | h | h
  · exact (urlencode_ne _ c h).1
  · rcases h with rfl
    decide
  · exact (urlencode_ne _ c h).1

theorem segOf_nonempty (p : Bytes × Bytes) : segOf p ≠ [] := by
  simp [segOf]

theorem splitEq_append (xs ys : Bytes) (h : ∀ c ∈ xs, c.val ≠ 61) :
    splitEq (xs ++ bEq :: ys) = (xs, ys) := by
  induction xs with
  | nil => rw [List.nil_append, splitEq, if_pos (show bEq.val = 61 from rfl)]
  | cons b r ih =>
    have hb : b.val ≠ 61 := h b (List.mem_cons_self b r)
    have ih' := ih fun c hc => h c (List.mem_cons_of_mem _ hc)
    rw [List.cons_append, splitEq, if_neg hb]
    simp only [ih']

theorem splitAmp_sep (xs ys : Bytes) (h : ∀ c ∈ xs, c.val ≠ 38) :
    splitAmp (xs ++ bAmp :: ys) = xs :: splitAmp ys := by
  induction xs with
  | nil => rw [List.nil_append, splitAmp, if_pos (show bAmp.val = 38 from rfl)]
  | cons b r ih =>
    have hb : b.val ≠ 38 := h b (List.mem_cons_self b r)
    have ih' := ih fun c hc => h c (List.mem_cons_of_mem _ hc)
    rw [List.cons_append, splitAmp, if_neg hb, ih']

theorem splitAmp_none (xs : Bytes) (h : ∀ c ∈ xs, c.val ≠ 38) :
    splitAmp xs = [xs] := by
  induction xs with
  | nil => rfl
  | cons b r ih =>
    have hb : b.val ≠ 38 := h b (List.mem_cons_self b r)
    have ih' := ih fun c hc => h c (List.mem_cons_of_mem _ hc)
    rw [splitAmp, if_neg hb, ih']

theorem splitEq_segOf (k v : Bytes) :
    splitEq (segOf (k, v)) = (urlencode k, urlencode v) :=
  splitEq_append _ _ fun c hc => (urlencode_ne k c hc).2

/-- Parsing one serialized segment recovers its pair. -/
theorem parseSeg_segOf (k v : Bytes) :
    (if segOf (k, v) = [] then none
     else
       let p := splitEq (segOf (k, v))
       some (decodeComponent p.1, decodeComponent p.2)) = some (k, v) := by
  rw [if_neg (segOf_nonempty (k, v))]
  simp [splitEq_segOf, decodeComponent_urlencode]

/-- The serializer and the standard decoder are inverse on pair lists. -/
theorem parse_serializePairs (ps : List (Bytes × Bytes)) :
    parseFormUrlEncoded (serializePairs ps) = ps := by
  induction ps with
  | nil => rfl
  | cons p rest ih =>
    obtain ⟨k, v⟩ := p
    cases rest with
    | nil =>
      unfold parseFormUrlEncoded
      rw [show serializePairs [(k, v)] = segOf (k, v) from rfl,
        splitAmp_none _ (segOf_ne (k, v))]
      simp only [List.filterMap_cons, List.filterMap_nil]
      rw [parseSeg_segOf]
    | cons q r =>
      unfold parseFormUrlEncoded at ih ⊢
      rw [show serializePairs ((k, v) :: q :: r) =
            segOf (k, v) ++ bAmp :: serializePairs (q :: r) from rfl,
        splitAmp_sep _ _ (segOf_ne (k, v))]
      simp only [List.filterMap_cons]
      rw [parseSeg_segOf, ih]

/-! ## JavaScript numbers (the fragment the adapter needs)

`Number(headers["content-length"])` yields `NaN` when the header is absent
or unparseable; the adapter only ever compares it, tests its truthiness
(`NaN` and `0` are falsy) and interpolates it into an error message.  The
fragment modelled is `ℕ ∪ {NaN}`.
-/

inductive JsNum where
  | nan
  | val (n : Nat)
deriving DecidableEq

/-- JavaScript truthiness of a number: `NaN` and `0` are falsy. -/
def jsTruthy : JsNum → Bool
  | .nan => false
  | .val n => n ≠ 0

/-- `m > x` in JavaScript: every comparison with `NaN` is false. -/
def jsGt (m : Nat) : JsNum → Bool
  | .nan => false
  | .val n => n < m

/-- Template-literal rendering of a number. -/
def jsNumToString : JsNum → String
  | .nan => "NaN"
  | .val n => toString n

/-! ## The inbound stream bridge as a state machine

`get_raw_body` (request.ts lines 98-183) wraps the transport's push source
into a pull stream.  The handlers registered in `start` plus the `pull` and
`cancel` callbacks form a transition system over the captured state
(`size`, `cancelled`) together with the WHATWG stream-controller state and
the push source's own flags; `step` below is that transition function.
Controller semantics follow the WHATWG streams standard: `error` and
`enqueue`/`close` signal the consumer only while the stream is readable.
-/

/-- WHATWG readable-stream controller state. -/
inductive StreamSt where
  | readable
  | closed
  | errored
deriving DecidableEq

/-- What the consumer observes from one source event (`thrownObs` marks a
controller misuse that would raise a `TypeError`; unreachable for event
orders the transport can produce). -/
inductive Obs where
  | noObs
  | chunkObs (n : Nat)
  | closeObs
  | errorObs (msg : String)
  | thrownObs
deriving DecidableEq

/-- The immutable data captured by the stream closure: the effective limit
variable `length` and the original `content_length` (used to pick the error
message). -/
structure StreamCfg where
  effLength : JsNum
  contentLength : JsNum
deriving DecidableEq

/-- Mutable state of the bridge: the byte counter and `cancelled` flag of
the closure, the controller state, and the push source's destroyed/paused
flags. -/
structure PullState where
  size : Nat
  cancelled : Bool
  streamSt : StreamSt
  reqDestroyed : Bool
  reqPaused : Bool
deriving DecidableEq

/-- The state of a freshly constructed stream. -/
def initPull : PullState := ⟨0, false, .readable, false, false⟩

/-- Events the bridge reacts to: a `data` notification carrying a chunk of
`n` bytes (`desiredLow` encodes `desiredSize === null || desiredSize <= 0`
after the enqueue), the source's `end` and `error` notifications, a cancel
issued by the pull consumer, and a `pull` request. -/
inductive SrcEvent where
  | dataEv (n : Nat) (desiredLow : Bool)
  | endEv
  | errEv (e : String)
  | cancelEv (reason : String)
  | pullEv

/-- `controller.error`: transitions to `errored` and signals the consumer
only from the readable state; a no-op otherwise. -/
def ctrlError (s : StreamSt) : StreamSt × Bool :=
  if s = .readable then (.errored, true) else (s, false)

/-- The size-exceeded error message (request.ts lines 156-161): names
`content-length` when one was declared (truthy), the configured
`BODY_SIZE_LIMIT` otherwise. -/
def sizeExceededMsg (cfg : StreamCfg) : String :=
  "request body size exceeded " ++
    (if jsTruthy cfg.contentLength then "\x27content-length\x27" else "BODY_SIZE_LIMIT") ++
    " of " ++ jsNumToString cfg.effLength

/-- One transition of the bridge (request.ts lines 136-182). -/
def step (cfg : StreamCfg) (ev : SrcEvent) (s : PullState) : PullState × Obs :=
  match ev with
  | .dataEv n low =>
    if s.cancelled then (s, .noObs)
    else
      let sz := s.size + n
      if jsGt sz cfg.effLength then
        let e := ctrlError s.streamSt
        ({ s with size := sz, cancelled := true, streamSt := e.1 },
          if e.2 then .errorObs (sizeExceededMsg cfg) else .noObs)
      else if s.streamSt = .readable then
        ({ s with size := sz, reqPaused := if low then true else s.reqPaused },
          .chunkObs n)
      else ({ s with size := sz }, .thrownObs)
  | .endEv =>
    if s.cancelled then (s, .noObs)
    else if s.streamSt = .readable then ({ s with streamSt := .closed }, .closeObs)
    else (s, .thrownObs)
  | .errEv e =>
    let r := ctrlError s.streamSt
    ({ s with cancelled := true, streamSt := r.1 },
      if r.2 then .errorObs e else .noObs)
  | .cancelEv _ =>
    ({ s with cancelled := true, reqDestroyed := true, streamSt := .closed }, .noObs)
  | .pullEv => ({ s with reqPaused := false }, .noObs)

/-- Run a sequence of events from a state. -/
def runEvents (cfg : StreamCfg) (evs : List SrcEvent) (s : PullState) : PullState :=
  evs.foldl (fun st ev => (step cfg ev st).1) s

/-! ## `get_raw_body`

Embeds request.ts lines 98-183 up to the stream construction: the
content-type gate, the no-body check, the size-limit adjustment (and its
construction-time throw) and the destroyed-request shortcut.
-/

/-- The transport request fields `get_raw_body` reads.  `contentLength` is
`Number(headers["content-length"])` (so `nan` covers an absent or
unparseable header), `hasTransferEncoding` is
`headers["transfer-encoding"] != null`. -/
structure RawReq where
  hasContentType : Bool
  contentLength : JsNum
  hasTransferEncoding : Bool
  httpVersionMajor : Nat
  destroyed : Bool

/-- What `get_raw_body` returns when it does not throw: no body, an
immediately-cancelled empty stream, or a live stream with its captured
configuration. -/
inductive RawBody where
  | noBody
  | cancelledEmpty
  | stream (cfg : StreamCfg)
deriving DecidableEq

/-- Embeds `get_raw_body` (request.ts lines 98-183).  The `Except.error`
case is the construction-time `throw Error(...)`. -/
def get_raw_body (req : RawReq) (bodySizeLimit : Option Nat) : Except String RawBody :=
  if req.hasContentType = false then .ok .noBody
  else if (req.httpVersionMajor = 1 ∧ req.contentLength = .nan ∧
      req.hasTransferEncoding = false) ∨ req.contentLength = .val 0 then
    .ok .noBody
  else
    let adjusted : Except String JsNum :=
      match bodySizeLimit with
      | none => .ok req.contentLength
      | some bsl =>
        if bsl = 0 then .ok req.contentLength
        else if jsTruthy req.contentLength = false then .ok (.val bsl)
        else
          match req.contentLength with
          | .nan => .ok (.val bsl)
          | .val l =>
            if bsl < l then
              .error ("Received content-length of " ++ toString l ++
                ", but only accept up to " ++ toString bsl ++ " bytes.")
            else .ok (.val l)
    match adjusted with
    | .error e => .error e
    | .ok len =>
      if req.destroyed then .ok .cancelledEmpty
      else .ok (.stream ⟨len, req.contentLength⟩)

/-! ## The `getRequest` body decision

Embeds the body selection of `getRequest` (request.ts lines 222-244)
together with `canReadRawBody` (lines 76-80) and `serializeParsedBody`
(lines 82-96).
-/

/-- The transport request fields `getRequest` reads beyond those of
`get_raw_body`.  `parsedBody` is the `body` property a middleware may have
set (`none` is `undefined`); `formUrlEncoded` is
`hasFormUrlEncodedContentType(request.headers)`. -/
structure NodeReq extends RawReq where
  method : String
  readable : Bool
  readableEnded : Bool
  parsedBody : Option JsValue
  formUrlEncoded : Bool

/-- Embeds `canReadRawBody` (request.ts lines 76-80). -/
def canReadRawBody (r : NodeReq) : Bool :=
  !r.destroyed && !r.readableEnded && r.readable

/-- Embeds `serializeParsedBody` (request.ts lines 82-96): strings pass
verbatim, `URLSearchParams` serialize themselves, plain objects re-encode
as a form body when the content type says so, everything else becomes JSON
text.  (A bare `undefined` never reaches this function: the caller checks
`body !== undefined`; the `[]` result mirrors `TextEncoder().encode`
applied to the non-string `JSON.stringify(undefined)`.) -/
def serializeParsedBody (pb : JsValue) (isFormUrlEncoded : Bool) : Bytes :=
  match pb with
  | .str s => s
  | .usp pairs => serializePairs pairs
  | .obj fs =>
    if isFormUrlEncoded then toFormUrlEncodedBody fs else jsonStringify (.obj fs)
  | .undef => []
  | pb => jsonStringify pb

/-- The body the adapted `Request` is constructed with: a wrapped raw
stream or a one-chunk stream of serialized text. -/
inductive BodyInit where
  | rawStream (rb : RawBody)
  | text (s : Bytes)
deriving DecidableEq

/-- The body decision of `getRequest` (request.ts lines 227-244): `GET` and
`HEAD` never carry a body; otherwise the raw stream is preferred whenever
it is still readable, and a pre-parsed body is serialized only as the
fallback.  A `none` result is a `Request` with a `null` body. -/
def getRequestBody (r : NodeReq) (bodySizeLimit : Option Nat) :
    Except String (Option BodyInit) :=
  if r.method ≠ "GET" ∧ r.method ≠ "HEAD" then
    if canReadRawBody r then
      match get_raw_body r.toRawReq bodySizeLimit with
      | .error e => .error e
      | .ok .noBody => .ok none
      | .ok rb => .ok (some (.rawStream rb))
    else
      match r.parsedBody with
      | some pb => .ok (some (.text (serializeParsedBody pb r.formUrlEncoded)))
      | none => .ok none
  else .ok none

/-! ## URL reconstruction -/

/-- The request fields `constructRelativeUrl` reads; `baseUrl` and
`originalUrl` are the optional sub-router metadata. -/
structure UrlReq where
  url : String
  baseUrl : Option String
  originalUrl : Option String

/-- JavaScript truthiness of an optional string: absent and empty are both
falsy. -/
def jsStrTruthy : Option String → Bool
  | none => false
  | some s => s ≠ ""

/-- An optional string where absence reads as the empty string. -/
def optStr (o : Option String) : String := o.getD ""

/-- Last character of the path part (before any `?`) of a URL, the
`split("?")[0]!.at(-1)` of the source. -/
def lastPathChar (s : String) : Option Char :=
  (s.toList.takeWhile fun c => c ≠ '?').getLast?

/-- Embeds `constructRelativeUrl` (request.ts lines 185-211). -/
def constructRelativeUrl (r : UrlReq) : String :=
  if jsStrTruthy r.baseUrl = false ∨ jsStrTruthy r.originalUrl = false then
    if jsStrTruthy r.baseUrl then optStr r.baseUrl ++ r.url else r.url
  else if optStr r.baseUrl ++ r.url = optStr r.originalUrl then
    optStr r.baseUrl ++ r.url
  else if lastPathChar (optStr r.originalUrl) = some '/' then
    optStr r.baseUrl ++ r.url
  else optStr r.baseUrl

/-- The three-case algorithm exactly as the claim words it: without
mount-prefix/original-path metadata the result is `mountPrefix +
relativePath` (prefix read as empty when absent); when that concatenation
equals the recorded original path it is used; otherwise it is used exactly
when the original path, ignoring any query string, ends in a separator, and
the bare prefix is used when it does not. -/
def constructRelativeUrlSpec (r : UrlReq) : String :=
  let p := optStr r.baseUrl
  let concat := p ++ r.url
  if jsStrTruthy r.baseUrl = false ∨ jsStrTruthy r.originalUrl = false then concat
  else if concat = optStr r.originalUrl then concat
  else if lastPathChar (optStr r.originalUrl) = some '/' then concat
  else p

/-! ## The outbound adapter `setResponse` as a trace of transport calls

Embeds request.ts lines 255-339.  The model records every call `setResponse`
makes on the transport response handle (headers set, status written, body
chunks written, `end()` and `reader.cancel()` invocations).  The transport's
reactions are oracles: whether `setHeader` throws for a given entry, what
`res.write` returns for the i-th write, and whether the handle was already
destroyed when the body reader is acquired.  The model follows the
success-path producer (the body yields its chunks, then completes); in
standard mode a blocked write suspends on `drain` and `next()` re-enters the
loop at the following read, which performs the same call sequence as the
Lambda-mode `continue`, so both appear as one branch.
-/

/-- A header value as passed to `res.setHeader`: a single string, or the
split list for `set-cookie`. -/
inductive HeaderVal where
  | one (v : String)
  | many (vs : List String)
deriving DecidableEq

/-- The calls `setResponse` has made on the transport response handle. -/
structure ResTrace where
  headersSet : List (String × HeaderVal)
  statusCode : Option Nat
  writeHeadCalls : List Nat
  writes : List String
  endCalls : Nat
  endData : List (Option String)
  readerCancelCalls : Nat
deriving DecidableEq

/-- The empty trace. -/
def emptyTrace : ResTrace := ⟨[], none, [], [], 0, [], 0⟩

/-- One `res.end(d)` call. -/
def doEnd (st : ResTrace) (d : Option String) : ResTrace :=
  { st with endCalls := st.endCalls + 1, endData := st.endData ++ [d] }

/-- The adapted response body handed to the adapter. -/
structure BodySpec where
  locked : Bool
  chunks : List String

/-- The adapted response handed to the adapter: its header entries as
iterated, the status, and the optional body. -/
structure RespSpec where
  headers : List (String × String)
  status : Nat
  body : Option BodySpec

/-- Transport-side oracles: `setHeaderError k v` is the `String(error)`
rendering of the exception `res.setHeader` throws for that entry (`none`
when it succeeds), `splitCookies` is the external
`set_cookie_parser.splitCookiesString`, `writeAccepted i` is what
`res.write` returns for the i-th chunk, `destroyedAtBody` is
`res.destroyed` at reader acquisition, and `lambdaEnv` the
AWS-Lambda-environment marker. -/
structure ResEnv where
  setHeaderError : String → String → Option String
  splitCookies : String → List String
  writeAccepted : Nat → Bool
  destroyedAtBody : Bool
  lambdaEnv : Bool

/-- The header-write phase (request.ts lines 256-271).  Returns the trace
and whether processing continues; on a throw every previously-set header is
removed, a 500 head is written and the channel ends with the error text. -/
def writeHeadersPhase (env : ResEnv) : List (String × String) → ResTrace → ResTrace × Bool
  | [], st => (st, true)
  | (k, v) :: rest, st =>
    match env.setHeaderError k v with
    | some errText =>
      (doEnd { st with
                headersSet := [],
                writeHeadCalls := st.writeHeadCalls ++ [500] } (some errText), false)
    | none =>
      let hv := if k = "set-cookie" then HeaderVal.many (env.splitCookies v)
        else HeaderVal.one v
      writeHeadersPhase env rest { st with headersSet := st.headersSet ++ [(k, hv)] }

/-- The streaming loop `next` (request.ts lines 310-338) on the success
path: each chunk is written; after a write the channel is terminated —
inside the loop — when and only when the write was accepted (a blocked
write skips the `end()` and resumes with the next read, via `drain` or the
Lambda-mode `continue`); end-of-stream merely breaks out. -/
def streamPhase (env : ResEnv) : Nat → List String → ResTrace → ResTrace
  | _, [], st => st
  | i, c :: rest, st =>
    let st := { st with writes := st.writes ++ [c] }
    if env.writeAccepted i then streamPhase env (i + 1) rest (doEnd st none)
    else streamPhase env (i + 1) rest st

/-- The defensive body text for an already-consumed body (request.ts lines
282-285). -/
def lockedBodyMsg : String :=
  "Fatal error: Response body is locked. " ++
    "This can happen when the response was already read (for example through \x27response.json()\x27 or \x27response.text()\x27)."

/-- Embeds `setResponse` (request.ts lines 255-339) as the trace of calls
it performs. -/
def setResponse (env : ResEnv) (resp : RespSpec) : ResTrace :=
  match writeHeadersPhase env resp.headers emptyTrace with
  | (st, false) => st
  | (st, true) =>
    let st := { st with
                statusCode := some resp.status,
                writeHeadCalls := st.writeHeadCalls ++ [resp.status] }
    match resp.body with
    | none => doEnd st none
    | some b =>
      if b.locked then doEnd st (some lockedBodyMsg)
      else if env.destroyedAtBody then
        { st with readerCancelCalls := st.readerCancelCalls + 1 }
      else streamPhase env 0 b.chunks st

/-! ## The outbound cancellation handler

Embeds the `cancel` closure and its registration (request.ts lines
296-307).  The handler is registered on both the `close` and `error`
notifications; on invocation it unregisters itself from both, cancels the
body reader (swallowing a secondary rejection) and, when invoked with an
error, destroys the response handle with it.  `fireNotice` delivers a
notification the way the event emitter does: the handler body runs only
while it is still registered.
-/

/-- Registration flags and observable cleanup counts around the `cancel`
closure. -/
structure CancelSt where
  closeReg : Bool
  errorReg : Bool
  readerCancelCalls : Nat
  destroyCalls : Nat
deriving DecidableEq

/-- The state right after `res.on("close", cancel); res.on("error",
cancel)`. -/
def cancelInit : CancelSt := ⟨true, true, 0, 0⟩

/-- The body of the `cancel` closure, invoked with the optional error the
notification carried. -/
def cancelHandler (err : Option String) (s : CancelSt) : CancelSt :=
  { closeReg := false, errorReg := false,
    readerCancelCalls := s.readerCancelCalls + 1,
    destroyCalls := s.destroyCalls + if err.isSome then 1 else 0 }

/-- A notification of the output channel: `close` carries no argument,
`error` carries the error. -/
inductive ResNotice where
  | closeN
  | errorN (e : String)

/-- Deliver one notification: the handler runs only if still registered for
that notification. -/
def fireNotice : ResNotice → CancelSt → CancelSt
  | .closeN, s => if s.closeReg then cancelHandler none s else s
  | .errorN e, s => if s.errorReg then cancelHandler (some e) s else s

/-! ## Settling the claims -/

theorem empty_string_append (s : String) : "" ++ s = s := by
  cases s
  rfl

/-- Claim C5: `constructRelativeUrl` follows the three-case algorithm —
without mount metadata the path is `mountPrefix + relativePath` (just the
relative path when the prefix is absent); a concatenation equal to the
recorded original path is used as is; otherwise the concatenation is used
exactly when the original path, ignoring the query string, ends in a
separator, and the bare prefix when it does not — including the two spec
scenarios (`/api` + `/users` with original `/api/users`, and `/api` + `/`
with original `/api`). -/
theorem c5_url_reconstruction :
    (∀ r : UrlReq, constructRelativeUrl r = constructRelativeUrlSpec r) ∧
    constructRelativeUrl ⟨"/users", some "/api", some "/api/users"⟩ = "/api/users" ∧
    constructRelativeUrl ⟨"/", some "/api", some "/api"⟩ = "/api" := by
  refine ⟨fun r => ?_, by decide, by decide⟩
  unfold constructRelativeUrl constructRelativeUrlSpec
  by_cases h : jsStrTruthy r.baseUrl = false ∨ jsStrTruthy r.originalUrl = false
  · rw [if_pos h, if_pos h]
    by_cases hb : jsStrTruthy r.baseUrl = true
    · rw [if_pos hb]
    · rw [if_neg hb]
      cases hob : r.baseUrl with
      | none => rw [optStr, Option.getD_none, empty_string_append]
      | some s =>
        have hs : s = "" := by
          rw [hob] at hb
          simpa [jsStrTruthy] using hb
        rw [optStr, Option.getD_some, hs, empty_string_append]
  · rw [if_neg h, if_neg h]

/-- Claim C6: re-serializing a plain key/value mapping with
`toFormUrlEncodedBody` and parsing the result with a standard
`application/x-www-form-urlencoded` decoder reproduces the same key/value
pairs, where array values expand to repeated keys, `null` becomes the empty
string, nested plain objects their `JSON.stringify` text and other values
their string coercion (that expansion is `flattenBody`, the pair list the
source accumulates into its `URLSearchParams`). -/
theorem c6_form_roundtrip (body : List (Bytes × JsValue)) :
    parseFormUrlEncoded (toFormUrlEncodedBody body) = flattenBody body := by
  unfold toFormUrlEncodedBody
  exact parse_serializePairs (flattenBody body)

/-- Claim C4: for the two body-less methods `GET` and `HEAD`, the adapted
request's body is `null` regardless of declared content-length,
transfer-encoding or a pre-parsed body on the handle (all of which are
quantified over inside `r`). -/
theorem c4_bodyless_methods (r : NodeReq) (bodySizeLimit : Option Nat)
    (h : r.method = "GET" ∨ r.method = "HEAD") :
    getRequestBody r bodySizeLimit = .ok none := by
  have hn : ¬(r.method ≠ "GET" ∧ r.method ≠ "HEAD") := by
    rcases h with h | h <;> simp [h]
  unfold getRequestBody
  rw [if_neg hn]

/-- Witness for C4: a `GET` request with a declared length, a readable raw
stream and a pre-parsed body present still adapts to a `null` body. -/
theorem c4_witness :
    getRequestBody
      ⟨⟨true, .val 10, true, 1, false⟩, "GET", true, false,
        some (.str (strToBytes "x")), false⟩ (some 5) = .ok none :=
  c4_bodyless_methods _ _ (Or.inl rfl)

/-- Claim C10 (implicit): on the raw-stream path, a request without a
content-type header gets `null` from `get_raw_body` — no stream is
constructed, whatever the content-length or transfer-encoding headers and
the readability of the raw stream say — and the adapted body is absent. -/
theorem c10_no_content_type (r : NodeReq) (bodySizeLimit : Option Nat)
    (h1 : r.hasContentType = false) (h2 : canReadRawBody r = true) :
    get_raw_body r.toRawReq bodySizeLimit = .ok .noBody ∧
      getRequestBody r bodySizeLimit = .ok none := by
  have hraw : get_raw_body r.toRawReq bodySizeLimit = .ok .noBody := by
    unfold get_raw_body
    rw [if_pos h1]
  refine ⟨hraw, ?_⟩
  unfold getRequestBody
  by_cases hm : r.method ≠ "GET" ∧ r.method ≠ "HEAD"
  · rw [if_pos hm, if_pos h2, hraw]
  · rw [if_neg hm]

/-- Witness for C10: no content-type but a declared content-length of 100,
a readable stream and a configured limit of 10 — the body is still
absent (and no error is raised). -/
theorem c10_witness :
    get_raw_body (⟨false, .val 100, false, 1, false⟩ : RawReq) (some 10) =
        .ok .noBody ∧
      getRequestBody
        ⟨⟨false, .val 100, false, 1, false⟩, "POST", true, false, none, false⟩
        (some 10) = .ok none :=
  c10_no_content_type
    ⟨⟨false, .val 100, false, 1, false⟩, "POST", true, false, none, false⟩
    (some 10) rfl rfl

/-- Claim C2 is false as stated: a request whose declared content-length
(100) exceeds the configured limit (10) but which carries no content-type
header makes `get_raw_body` return `null` at the content-type gate — no
`PayloadTooLarge`-style error is thrown. -/
theorem c2_counterexample :
    get_raw_body (⟨false, .val 100, true, 1, false⟩ : RawReq) (some 10) =
      .ok .noBody := rfl

/-- Claim C2 as amended: for every request that carries a content-type
header, when the declared content-length exceeds a configured non-zero
`bodySizeLimit`, `get_raw_body` throws at construction time — before any
stream exists — with the payload-too-large error text. -/
theorem c2_amended (req : RawReq) (l n : Nat) (h1 : req.hasContentType = true)
    (h2 : req.contentLength = .val l) (h3 : 0 < n) (h4 : n < l) :
    get_raw_body req (some n) =
      .error ("Received content-length of " ++ toString l ++
        ", but only accept up to " ++ toString n ++ " bytes.") := by
  unfold get_raw_body
  rw [if_neg (by simp [h1])]
  rw [if_neg (by rw [h2]; simp; omega)]
  rw [h2]
  have hn : ¬n = 0 := by omega
  have hl : jsTruthy (.val l) = true := by
    simp [jsTruthy]
    omega
  simp only [hn, if_false, hl, Bool.true_eq_false, if_neg, if_pos h4]

/-- Witness for C2 (amended): content-type present, declared length 100,
limit 10 — the construction-time error fires with the exact message. -/
theorem c2_amended_witness :
    get_raw_body (⟨true, .val 100, false, 1, false⟩ : RawReq) (some 10) =
      .error "Received content-length of 100, but only accept up to 10 bytes." := by
  have h := c2_amended ⟨true, .val 100, false, 1, false⟩ 100 10 rfl rfl
    (by omega) (by omega)
  simpa using h

/-- Reachability invariant of the inbound bridge: the `cancelled` flag is
only ever set alongside (or after) the controller leaving the readable
state. -/
theorem step_inv (cfg : StreamCfg) (ev : SrcEvent) (s : PullState)
    (h : s.cancelled = true → s.streamSt ≠ .readable) :
    (step cfg ev s).1.cancelled = true → (step cfg ev s).1.streamSt ≠ .readable := by
  cases ev with
  | dataEv n low =>
    by_cases hc : s.cancelled = true
    · simpa [step, hc] using h
    · have hc' : s.cancelled = false := eq_false_of_ne_true hc
      by_cases hex : jsGt (s.size + n) cfg.effLength = true
      · by_cases hr : s.streamSt = .readable
        · simp [step, hc', hex, ctrlError, hr]
        · simp [step, hc', hex, ctrlError, hr]
      · have hex' : jsGt (s.size + n) cfg.effLength = false := eq_false_of_ne_true hex
        by_cases hr : s.streamSt = .readable
        · simp [step, hc', hex', hr]
        · simp [step, hc', hex', hr]
  | endEv =>
    by_cases hc : s.cancelled = true
    · simpa [step, hc] using h
    · have hc' : s.cancelled = false := eq_false_of_ne_true hc
      by_cases hr : s.streamSt = .readable
      · simp [step, hc', hr]
      · simp [step, hc', hr]
  | errEv e =>
    by_cases hr : s.streamSt = .readable
    · simp [step, ctrlError, hr]
    · simp [step, ctrlError, hr]
  | cancelEv reason => simp [step]
  | pullEv => simpa [step] using h

/-- The invariant holds of every state reachable from a fresh stream. -/
theorem runEvents_inv (cfg : StreamCfg) (evs : List SrcEvent) :
    ∀ s : PullState, (s.cancelled = true → s.streamSt ≠ .readable) →
      ((runEvents cfg evs s).cancelled = true →
        (runEvents cfg evs s).streamSt ≠ .readable) := by
  induction evs with
  | nil => exact fun s h => h
  | cons ev rest ih =>
    intro s h
    have h1 := step_inv cfg ev s h
    simpa [runEvents] using ih _ h1

/-- Claim C3 is false as stated: when the running total exceeds the
effective limit, the consumer does observe the distinguishing
`BodySizeExceeded` error, but the underlying push source is not cancelled —
the request is neither destroyed nor paused (only the closure's `cancelled`
flag is set), so further `data` notifications can still fire; they are
merely ignored. -/
theorem c3_counterexample :
    (step ⟨.val 2, .val 2⟩ (.dataEv 3 false) initPull).2 =
      .errorObs "request body size exceeded \x27content-length\x27 of 2" ∧
    (step ⟨.val 2, .val 2⟩ (.dataEv 3 false) initPull).1.reqDestroyed = false ∧
    (step ⟨.val 2, .val 2⟩ (.dataEv 3 false) initPull).1.reqPaused = false :=
  ⟨rfl, rfl, rfl⟩

/-- Claim C3 as amended: the moment the running total exceeds the effective
limit, the consumer observes a `BodySizeExceeded` error whose message names
`content-length` when a length was declared and `BODY_SIZE_LIMIT`
otherwise, and the stream marks itself cancelled so that no later `data` or
`end` notification produces any consumer signal (the push source itself is
not destroyed or paused; its notifications are ignored). -/
theorem c3_amended (cfg : StreamCfg) (n : Nat) (low : Bool) (s : PullState)
    (h1 : s.cancelled = false) (h2 : s.streamSt = .readable)
    (h3 : jsGt (s.size + n) cfg.effLength = true) :
    (step cfg (.dataEv n low) s).2 = .errorObs (sizeExceededMsg cfg) ∧
    (step cfg (.dataEv n low) s).1.cancelled = true ∧
    (∀ m low2, (step cfg (.dataEv m low2) (step cfg (.dataEv n low) s).1).2 = .noObs) ∧
    (step cfg .endEv (step cfg (.dataEv n low) s).1).2 = .noObs := by
  have hstep : step cfg (.dataEv n low) s =
      ({ s with size := s.size + n, cancelled := true, streamSt := .errored },
        .errorObs (sizeExceededMsg cfg)) := by
    simp [step, h1, h2, h3, ctrlError]
  refine ⟨by rw [hstep], by rw [hstep], fun m low2 => ?_, ?_⟩
  · rw [hstep]
    simp [step]
  · rw [hstep]
    simp [step]

/-- Witness for C3 (amended): a stream with a configured limit of 2 and no
declared length receives a 3-byte chunk — the consumer sees the
`BODY_SIZE_LIMIT` message, and a later 4-byte chunk and the source's `end`
produce nothing. -/
theorem c3_amended_witness :
    (step ⟨.val 2, .nan⟩ (.dataEv 3 false) initPull).2 =
      .errorObs (sizeExceededMsg ⟨.val 2, .nan⟩) ∧
    (step ⟨.val 2, .nan⟩ (.dataEv 3 false) initPull).1.cancelled = true ∧
    (step ⟨.val 2, .nan⟩ (.dataEv 4 true)
      (step ⟨.val 2, .nan⟩ (.dataEv 3 false) initPull).1).2 = .noObs ∧
    (step ⟨.val 2, .nan⟩ .endEv
      (step ⟨.val 2, .nan⟩ (.dataEv 3 false) initPull).1).2 = .noObs := by
  have h := c3_amended ⟨.val 2, .nan⟩ 3 false initPull rfl rfl (by decide)
  exact ⟨h.1, h.2.1, h.2.2.1 4 true, h.2.2.2⟩

/-- Claim C9 is false as stated: after the source completes normally (an
`end` event, stream not cancelled), a late `error` event does not propagate
to the consumer — the claim promises propagation whenever the stream was
not already cancelled. -/
theorem c9_counterexample :
    (runEvents ⟨.val 5, .val 5⟩ [SrcEvent.endEv] initPull).cancelled = false ∧
    (step ⟨.val 5, .val 5⟩ (.errEv "late")
      (runEvents ⟨.val 5, .val 5⟩ [SrcEvent.endEv] initPull)).2 = .noObs :=
  ⟨rfl, rfl⟩

/-- Claim C9 as amended: a source `error` or `end` event terminates the
stream (the error propagates, completion closes it) while the stream is
live — not cancelled and still readable; once the stream has been
cancelled (and, the invariant shows, is hence no longer readable) both
events produce no consumer signal, so the consumer is never
double-signaled. -/
theorem c9_terminal_noop (cfg : StreamCfg) (evs : List SrcEvent) (e : String) :
    ((runEvents cfg evs initPull).cancelled = true →
      (step cfg .endEv (runEvents cfg evs initPull)).2 = .noObs ∧
      (step cfg (.errEv e) (runEvents cfg evs initPull)).2 = .noObs) ∧
    ((runEvents cfg evs initPull).cancelled = false →
      (runEvents cfg evs initPull).streamSt = .readable →
      (step cfg .endEv (runEvents cfg evs initPull)).2 = .closeObs ∧
      (step cfg (.errEv e) (runEvents cfg evs initPull)).2 = .errorObs e) := by
  have hinv : (runEvents cfg evs initPull).cancelled = true →
      (runEvents cfg evs initPull).streamSt ≠ .readable :=
    runEvents_inv cfg evs initPull (by simp [initPull])
  constructor
  · intro hc
    have hr := hinv hc
    exact ⟨by simp [step, hc], by simp [step, ctrlError, hr]⟩
  · intro hc hr
    exact ⟨by simp [step, hc, hr], by simp [step, ctrlError, hr]⟩

/-- Witness for C9 (amended): after a consumer cancel both late events are
silent; on a fresh stream `end` closes and an error propagates. -/
theorem c9_witness :
    ((step ⟨.val 5, .val 5⟩ .endEv
        (runEvents ⟨.val 5, .val 5⟩ [SrcEvent.cancelEv "stop"] initPull)).2 = .noObs ∧
      (step ⟨.val 5, .val 5⟩ (.errEv "late")
        (runEvents ⟨.val 5, .val 5⟩ [SrcEvent.cancelEv "stop"] initPull)).2 = .noObs) ∧
    ((step ⟨.val 5, .val 5⟩ .endEv (runEvents ⟨.val 5, .val 5⟩ [] initPull)).2 =
        .closeObs ∧
      (step ⟨.val 5, .val 5⟩ (.errEv "boom")
        (runEvents ⟨.val 5, .val 5⟩ [] initPull)).2 = .errorObs "boom") :=
  ⟨(c9_terminal_noop ⟨.val 5, .val 5⟩ [SrcEvent.cancelEv "stop"] "late").1 rfl,
    (c9_terminal_noop ⟨.val 5, .val 5⟩ [] "boom").2 rfl rfl⟩

/-- Claim C7 is false as stated: when the output channel's `close` fires
first and its `error` fires second, the handler runs once (reader cancelled
exactly once, the second notification is a no-op) but `res.destroy` is
never called — not called exactly once as the claim has it, because the
handler only destroys the channel when its first invocation carried an
error. -/
theorem c7_counterexample :
    (fireNotice (.errorN "boom") (fireNotice .closeN cancelInit)).readerCancelCalls = 1 ∧
    (fireNotice (.errorN "boom") (fireNotice .closeN cancelInit)).destroyCalls = 0 :=
  ⟨rfl, rfl⟩

/-- Claim C7 as amended: two notifications delivered in sequence invoke the
handler body exactly once (it unregisters itself on first firing, and any
secondary reader-cancellation error is swallowed): the reader is cancelled
exactly once, and the channel is destroyed at most once — exactly once when
the first notification carried an error, never when it was a plain
close. -/
theorem c7_cancel_once (n1 n2 : ResNotice) :
    (fireNotice n2 (fireNotice n1 cancelInit)).readerCancelCalls = 1 ∧
    (fireNotice n2 (fireNotice n1 cancelInit)).destroyCalls =
      (match n1 with
        | .closeN => 0
        | .errorN _ => 1) := by
  cases n1 <;> cases n2 <;> simp [fireNotice, cancelHandler, cancelInit]

/-- On a prefix of headers the transport accepts, the header-write phase
ends in the recovery trace as soon as one entry throws. -/
theorem writeHeadersPhase_fail (env : ResEnv) (k v errText : String)
    (post : List (String × String)) :
    ∀ (pre : List (String × String)) (st : ResTrace),
      (∀ p ∈ pre, env.setHeaderError p.1 p.2 = none) →
      env.setHeaderError k v = some errText →
      writeHeadersPhase env (pre ++ (k, v) :: post) st =
        (doEnd { st with
                  headersSet := [],
                  writeHeadCalls := st.writeHeadCalls ++ [500] } (some errText),
          false) := by
  intro pre
  induction pre with
  | nil =>
    intro st _ hkv
    simp [writeHeadersPhase, hkv]
  | cons p rest ih =>
    intro st hpre hkv
    have hp : env.setHeaderError p.1 p.2 = none := hpre p (List.mem_cons_self p rest)
    obtain ⟨pk, pv⟩ := p
    simp only [List.cons_append, writeHeadersPhase, hp]
    exact ih _ (fun q hq => hpre q (List.mem_cons_of_mem _ hq)) hkv

/-- Claim C8: if writing some header throws (every earlier entry having
been accepted), `setResponse` aborts the header phase: all previously-set
headers are removed, a single 500 head is written, the channel is ended
once with the error's text as body, and neither the status phase nor the
no-body or streaming phases run (no status assignment, no body writes, no
reader interaction). -/
theorem c8_header_failure (env : ResEnv) (resp : RespSpec)
    (pre post : List (String × String)) (k v errText : String)
    (hh : resp.headers = pre ++ (k, v) :: post)
    (hpre : ∀ p ∈ pre, env.setHeaderError p.1 p.2 = none)
    (hkv : env.setHeaderError k v = some errText) :
    setResponse env resp =
      { headersSet := [], statusCode := none, writeHeadCalls := [500],
        writes := [], endCalls := 1, endData := [some errText],
        readerCancelCalls := 0 } := by
  unfold setResponse
  rw [hh, writeHeadersPhase_fail env k v errText post pre emptyTrace hpre hkv]
  rfl

/-- Witness for C8: the second of two headers throws; the trace is exactly
the recovery trace. -/
theorem c8_witness :
    setResponse
      ⟨fun key _ => if key = "x-bad" then some "TypeError: invalid value" else none,
        fun cv => [cv], fun _ => true, false, false⟩
      ⟨[("content-type", "text/plain"), ("x-bad", "bad")], 200,
        some ⟨false, ["hello"]⟩⟩ =
      { headersSet := [], statusCode := none, writeHeadCalls := [500],
        writes := [], endCalls := 1, endData := [some "TypeError: invalid value"],
        readerCancelCalls := 0 } := by
  refine c8_header_failure _ _ [("content-type", "text/plain")] [] "x-bad" "bad"
    "TypeError: invalid value" rfl ?_ rfl
  intro p hp
  rw [List.mem_singleton.mp hp]
  rfl

/-- Claim C1 states the intended exactly-once termination invariant, and
the code breaks it (the specification itself flags the defect): the
streaming loop calls `end()` after every accepted write, so a two-chunk
body terminates the channel twice and a zero-chunk body stream never
terminates it at all. -/
theorem c1_end_termination_defect :
    (setResponse ⟨fun _ _ => none, fun cv => [cv], fun _ => true, false, false⟩
      ⟨[], 200, some ⟨false, ["a", "b"]⟩⟩).endCalls = 2 ∧
    (setResponse ⟨fun _ _ => none, fun cv => [cv], fun _ => true, false, false⟩
      ⟨[], 200, some ⟨false, []⟩⟩).endCalls = 0 :=
  ⟨rfl, rfl⟩

end BetterCall
